import Mathlib

/-!
Verification of the cleaning pipeline of `excel_cleaner_pro.py`
(class `ExcelCleaner`), against its natural-language specification.

The pipeline is shallowly embedded:
* Python strings are `List Nat` of character codes (the inputs at stake are
  ASCII; `codes` converts a Lean string literal for concrete instances);
* a pandas `DataFrame` is a structure of named columns and rows of cells,
  a cell being `Option Val` with `none` as the NaN / null marker;
* the file-system effects of `clean_excel_file` (backup copy, load, save)
  are abstracted into an `Env` record of step outcomes, and the progress
  callback is modelled by returning the list of percent values passed to it.
-/

set_option linter.unusedVariables false
set_option linter.unnecessarySeqFocus false

/-- Character codes of a Lean string literal, for concrete test inputs. -/
def codes (s : String) : List Nat :=
  s.data.map Char.toNat

/-- Python `str.isspace` characters relevant to `str.strip()` (ASCII). -/
def isSpaceB (n : Nat) : Bool :=
  decide (n = 32 ∨ n = 9 ∨ n = 10 ∨ n = 13 ∨ n = 11 ∨ n = 12)

/-- ASCII letter test: Python's "cased character" for ASCII data. -/
def isAlphaB (n : Nat) : Bool :=
  decide ((65 ≤ n ∧ n ≤ 90) ∨ (97 ≤ n ∧ n ≤ 122))

/-- ASCII upper-casing, as in Python `str.upper` on one character. -/
def toUp (n : Nat) : Nat :=
  if 97 ≤ n ∧ n ≤ 122 then n - 32 else n

/-- ASCII lower-casing, as in Python `str.lower` on one character. -/
def toLow (n : Nat) : Nat :=
  if 65 ≤ n ∧ n ≤ 90 then n + 32 else n

/-- Drop leading whitespace, the front half of Python `str.strip()`. -/
def dropLeading : List Nat → List Nat
  | [] => []
  | c :: rest => if isSpaceB c then dropLeading rest else c :: rest

/-- Python `str.strip()`: remove leading and trailing whitespace. -/
def pyStrip (s : List Nat) : List Nat :=
  ((dropLeading s).reverse |> dropLeading).reverse

/-- Python `str.title()` scanner: a cased (here: ASCII letter) character is
upper-cased when the previous character was not cased, lower-cased when it
was; other characters pass through.  The flag records whether the previous
character was cased. -/
def pyTitleAux : Bool → List Nat → List Nat
  | _, [] => []
  | prevCased, c :: rest =>
    if isAlphaB c then
      (cond prevCased (toLow c) (toUp c)) :: pyTitleAux true rest
    else
      c :: pyTitleAux false rest

/-- Python `str.title()`. -/
def pyTitle (s : List Nat) : List Nat :=
  pyTitleAux false s

/-- Python substring test used by `replaceAllF`: `pat` begins `s`. -/
def leadsWith : List Nat → List Nat → Bool
  | [], _ => true
  | _ :: _, [] => false
  | a :: as, b :: bs => (a == b) && leadsWith as bs

/-- Fuel-indexed worker for Python `str.replace(old, new)`: scan left to
right, replacing every non-overlapping occurrence of `pat`.  Each step
consumes at least one character, so `fuel = s.length` computes the result. -/
def replaceAllF (pat rep : List Nat) : Nat → List Nat → List Nat
  | _, [] => []
  | 0, s => s
  | fuel + 1, c :: rest =>
    if pat.length ≠ 0 && leadsWith pat (c :: rest) then
      rep ++ replaceAllF pat rep fuel (List.drop (pat.length - 1) rest)
    else
      c :: replaceAllF pat rep fuel rest

/-- Python `s.replace(pat, rep)` for a non-empty `pat`. -/
def replaceAll (pat rep s : List Nat) : List Nat :=
  replaceAllF pat rep s.length s

/-- Number of pattern occurrences replaced by `replaceAllF` (same scan). -/
def occCountF (pat : List Nat) : Nat → List Nat → Nat
  | _, [] => 0
  | 0, _ => 0
  | fuel + 1, c :: rest =>
    if pat.length ≠ 0 && leadsWith pat (c :: rest) then
      occCountF pat fuel (List.drop (pat.length - 1) rest) + 1
    else
      occCountF pat fuel rest

/-- Number of occurrences of `pat` that `replaceAll` replaces in `s`. -/
def occCount (pat s : List Nat) : Nat :=
  occCountF pat s.length s

/-- Decimal string of a natural number, as Python `str` on an int. -/
def natStr (n : Nat) : List Nat :=
  (Nat.toDigits 10 n).map Char.toNat

/-- Decimal string of an integer, as Python `str` on an int. -/
def intStr : Int → List Nat
  | Int.ofNat n => natStr n
  | Int.negSucc n => 45 :: natStr (n + 1)

/-- `true` iff the string neither starts nor ends with whitespace. -/
def edgeOk (s : List Nat) : Bool :=
  match s.head?, s.getLast? with
  | some a, some b => !isSpaceB a && !isSpaceB b
  | _, _ => true

/-! ## Data model: `pandas.DataFrame` as used by the pipeline -/

/-- A cell's value: text or number (`excel_cleaner_pro.py` reads tabular
data whose cells are text, numbers, or the NaN marker). -/
inductive Val where
  | vStr (s : List Nat)
  | vNum (k : Int)
deriving DecidableEq, Repr

/-- A cell: `none` is the NaN / null / absent marker. -/
abbrev Cell := Option Val

/-- A pandas DataFrame: named columns, rows of cells.  The data-model
invariant (shared row length) is carried as a hypothesis where needed. -/
structure DataFrame where
  columns : List (List Nat)
  rows : List (List Cell)
deriving DecidableEq, Repr

/-- `df.isnull()` on one cell. -/
def cellIsNull (c : Cell) : Bool := c.isNone

/-- A row is completely empty when every cell is the null marker
(`df.dropna(how="all")`'s row criterion). -/
def rowAllNull (r : List Cell) : Bool := r.all cellIsNull

/-- Column `j` of the row list (missing entries read as null). -/
def colAt (rows : List (List Cell)) (j : Nat) : List Cell :=
  rows.map (fun r => r.getD j none)

/-- Column `j` is completely empty (`dropna(axis=1, how="all")` criterion). -/
def colAllNull (rows : List (List Cell)) (j : Nat) : Bool :=
  (colAt rows j).all cellIsNull

/-- pandas dtype tag of a column: the storage type is `object` (textual)
exactly when the column holds at least one string value; all-numeric or
all-null columns get a numeric dtype.  (`df[col].dtype == 'object'`.) -/
def colDtypeObject (df : DataFrame) (j : Nat) : Bool :=
  (colAt df.rows j).any (fun c =>
    match c with
    | some (Val.vStr _) => true
    | _ => false)

/-- Python `str(...)` of a cell, as `astype(str)` applies it:
NaN prints as `"nan"`, strings are unchanged, numbers print in decimal. -/
def cellStr : Cell → List Nat
  | none => codes "nan"
  | some (Val.vStr s) => s
  | some (Val.vNum k) => intStr k

/-- Structural `List.mapIdx`: map with the element index, from `i`. -/
def mapIdxFrom (f : Nat → α → β) : Nat → List α → List β
  | _, [] => []
  | i, a :: as => f i a :: mapIdxFrom f (i + 1) as

/-! ## The six cleaning operations (`ExcelCleaner` methods) -/

/-- Membership-tracking worker for `df.drop_duplicates()`: drop a row when
an equal row (null-equals-null, which `Option` equality gives) was seen. -/
def dedupAux : List (List Cell) → List (List Cell) → List (List Cell)
  | _, [] => []
  | seen, r :: rest =>
    if r ∈ seen then dedupAux seen rest
    else r :: dedupAux (r :: seen) rest

/-- `ExcelCleaner.remove_duplicates`: `df.drop_duplicates()`. -/
def remove_duplicates (df : DataFrame) : DataFrame :=
  { df with rows := dedupAux [] df.rows }

/-- `ExcelCleaner.remove_empty_rows`: `df.dropna(how="all")`. -/
def remove_empty_rows (df : DataFrame) : DataFrame :=
  { df with rows := df.rows.filter (fun r => !rowAllNull r) }

/-- The column positions `dropna(axis=1, how="all")` keeps: those that are
not completely null. -/
def keptCols (df : DataFrame) : List Nat :=
  (List.range df.columns.length).filter (fun j => !colAllNull df.rows j)

/-- `ExcelCleaner.remove_empty_columns`: `df.dropna(axis=1, how="all")` —
keep exactly the column positions that are not completely null. -/
def remove_empty_columns (df : DataFrame) : DataFrame :=
  { columns := (keptCols df).map (fun j => df.columns.getD j []),
    rows := df.rows.map (fun r => (keptCols df).map (fun j => r.getD j none)) }

/-- One cell of `trim_spaces`: object-dtype columns get
`astype(str).str.strip()`, other columns are untouched. -/
def trimCell (df : DataFrame) (j : Nat) (c : Cell) : Cell :=
  if colDtypeObject df j then some (Val.vStr (pyStrip (cellStr c))) else c

/-- One row of `trim_spaces`. -/
def trimRow (df : DataFrame) (r : List Cell) : List Cell :=
  mapIdxFrom (trimCell df) 0 r

/-- `ExcelCleaner.trim_spaces`: for every column of dtype `object`,
`df[col].astype(str).str.strip()`. -/
def trim_spaces (df : DataFrame) : DataFrame :=
  { df with rows := df.rows.map (trimRow df) }

/-- The per-name transformation of `normalize_column_names`:
`str(col).strip().title().replace('_', ' ')` (codes 95 `_` and 32 space). -/
def normalize_name (s : List Nat) : List Nat :=
  replaceAll [95] [32] (pyTitle (pyStrip s))

/-- `ExcelCleaner.normalize_column_names`. -/
def normalize_column_names (df : DataFrame) : DataFrame :=
  { df with columns := df.columns.map normalize_name }

/-- One cell of `title_case_cells`: object-dtype columns get
`astype(str).str.title()`, other columns are untouched. -/
def titleCell (df : DataFrame) (j : Nat) (c : Cell) : Cell :=
  if colDtypeObject df j then some (Val.vStr (pyTitle (cellStr c))) else c

/-- One row of `title_case_cells`. -/
def titleRow (df : DataFrame) (r : List Cell) : List Cell :=
  mapIdxFrom (titleCell df) 0 r

/-- `ExcelCleaner.title_case_cells`: for every column of dtype `object`,
`df[col].astype(str).str.title()`. -/
def title_case_cells (df : DataFrame) : DataFrame :=
  { df with rows := df.rows.map (titleRow df) }

/-! ## The pipeline: `ExcelCleaner.clean_excel_file` -/

/-- `CleaningConfig`: the six independent flags, defaulting to disabled. -/
structure CleaningConfig where
  remove_duplicates : Bool := false
  remove_empty_rows : Bool := false
  remove_empty_columns : Bool := false
  trim_spaces : Bool := false
  normalize_column_names : Bool := false
  title_case_cells : Bool := false
deriving DecidableEq, Repr

/-- `ExcelCleaner._create_backup`'s path formation:
`file_path.replace(".xlsx", "_backup_<timestamp>.xlsx")`.  The verbatim
file copy (`shutil.copy2`) is modelled by `Env.inputBytes` below. -/
def create_backup_path (file_path ts : List Nat) : List Nat :=
  replaceAll (codes ".xlsx") (codes "_backup_" ++ ts ++ codes ".xlsx") file_path

/-- `ExcelCleaner._get_cleaned_filename`:
`file_path.replace(".xlsx", "_cleaned_<timestamp>.xlsx")`. -/
def get_cleaned_filename (file_path ts : List Nat) : List Nat :=
  replaceAll (codes ".xlsx") (codes "_cleaned_" ++ ts ++ codes ".xlsx") file_path

/-- `ExcelCleaner._get_dataframe_stats`.  `data_types` (a dtype histogram)
is modelled by the counts of the two dtype classes of this data model. -/
structure DFStats where
  rows : Nat
  columns : Nat
  cells : Nat
  empty_cells : Nat
  object_cols : Nat
  other_cols : Nat
deriving DecidableEq, Repr

def get_dataframe_stats (df : DataFrame) : DFStats :=
  { rows := df.rows.length,
    columns := df.columns.length,
    cells := df.rows.length * df.columns.length,
    empty_cells := (df.rows.map (fun r => r.countP cellIsNull)).sum,
    object_cols :=
      ((List.range df.columns.length).filter (colDtypeObject df)).length,
    other_cols :=
      ((List.range df.columns.length).filter
        (fun j => !colDtypeObject df j)).length }

/-- The statistics record returned by `clean_excel_file`. -/
structure Statistics where
  original : DFStats
  final : DFStats
  operations_applied : List String
deriving DecidableEq, Repr

/-- The successful return value `(backup_path, cleaned_path, statistics)`,
together with the dataset and the bytes written by the two file effects. -/
structure PipeOk where
  backup_path : List Nat
  cleaned_path : List Nat
  backupBytes : List Nat
  outputDF : DataFrame
  statistics : Statistics
deriving DecidableEq, Repr

/-- Outcomes of the pipeline's three file-system effects, abstracting the
I/O environment: the backup copy (`shutil.copy2`), the load
(`pd.read_excel`), and the save (`df.to_excel`).  `inputBytes` are the
bytes of the input file; `copy2` writes them verbatim to the backup. -/
structure Env (ε : Type) where
  inputBytes : List Nat
  backupOutcome : Except ε Unit
  loadOutcome : Except ε DataFrame
  saveOutcome : Except ε Unit

/-- The `operations` list of `clean_excel_file`, in its fixed order. -/
def operations (config : CleaningConfig) : List (String × (DataFrame → DataFrame) × Bool) :=
  [("remove_duplicates", remove_duplicates, config.remove_duplicates),
   ("remove_empty_rows", remove_empty_rows, config.remove_empty_rows),
   ("remove_empty_columns", remove_empty_columns, config.remove_empty_columns),
   ("trim_spaces", trim_spaces, config.trim_spaces),
   ("normalize_column_names", normalize_column_names, config.normalize_column_names),
   ("title_case_cells", title_case_cells, config.title_case_cells)]

/-- `enabled_operations = [op for op in operations if op[2]]`. -/
def enabled_operations (config : CleaningConfig) : List (String × (DataFrame → DataFrame) × Bool) :=
  (operations config).filter (fun op => op.2.2)

/-- `ExcelCleaner.clean_excel_file`.  Returns the `Except` result together
with the names of the transformations that ran and the list of percent
values passed to the progress callback, in call order.  The percent
`int((i + 1) / total_ops * 100)` is the exact floor `(i+1)*100/total_ops`:
for every `total_ops ≤ 6` the Python float expression equals that floor.
Any exception is logged and re-raised unchanged (`raise`), which the
`Except.error` propagation models. -/
def clean_excel_file {ε : Type} (env : Env ε) (file_path : List Nat)
    (config : CleaningConfig) (ts1 ts2 : List Nat) :
    Except ε PipeOk × List String × List Nat :=
  match env.backupOutcome with
  | Except.error e => (Except.error e, [], [])
  | Except.ok _ =>
    match env.loadOutcome with
    | Except.error e => (Except.error e, [], [])
    | Except.ok df =>
      let original_stats := get_dataframe_stats df
      let enabled := enabled_operations config
      let total_ops := enabled.length
      let dfOut := enabled.foldl (fun d op => op.2.1 d) df
      let ran := enabled.map (fun op => op.1)
      let calls := (List.range total_ops).map (fun i => (i + 1) * 100 / total_ops)
      match env.saveOutcome with
      | Except.error e => (Except.error e, ran, calls)
      | Except.ok _ =>
        (Except.ok
          { backup_path := create_backup_path file_path ts1,
            cleaned_path := get_cleaned_filename file_path ts2,
            backupBytes := env.inputBytes,
            outputDF := dfOut,
            statistics :=
              { original := original_stats,
                final := get_dataframe_stats dfOut,
                operations_applied := ran } }, ran, calls)

/-! ## Character-level lemmas -/

/-- The single-character substitution performed by `.replace('_', ' ')`. -/
def repl1 (n : Nat) : Nat := if n = 95 then 32 else n

theorem isAlphaB_toUp (n : Nat) : isAlphaB (toUp n) = isAlphaB n := by
  unfold isAlphaB toUp
  split <;> rw [decide_eq_decide] <;> omega

theorem isAlphaB_toLow (n : Nat) : isAlphaB (toLow n) = isAlphaB n := by
  unfold isAlphaB toLow
  split <;> rw [decide_eq_decide] <;> omega

theorem toUp_toUp (n : Nat) : toUp (toUp n) = toUp n := by
  unfold toUp
  split
  · rw [if_neg (by omega)]
  · rfl

theorem toLow_toLow (n : Nat) : toLow (toLow n) = toLow n := by
  unfold toLow
  split
  · rw [if_neg (by omega)]
  · rfl

theorem repl1_of_alpha {m : Nat} (h : isAlphaB m = true) : repl1 m = m := by
  unfold isAlphaB at h
  rw [decide_eq_true_eq] at h
  unfold repl1; split <;> omega

theorem isAlphaB_repl1 {m : Nat} (h : isAlphaB m = false) :
    isAlphaB (repl1 m) = false := by
  unfold repl1
  split
  · decide
  · exact h

theorem repl1_repl1 (n : Nat) : repl1 (repl1 n) = repl1 n := by
  unfold repl1; split <;> simp

/-- `.replace('_', ' ')` is the character-wise substitution `repl1`. -/
theorem replaceAllF_underscore :
    ∀ (fuel : Nat) (s : List Nat), s.length ≤ fuel →
      replaceAllF [95] [32] fuel s = s.map repl1 := by
  intro fuel
  induction fuel with
  | zero =>
    intro s hs
    cases s with
    | nil => rfl
    | cons c rest => simp at hs
  | succ fuel ih =>
    intro s hs
    cases s with
    | nil => rfl
    | cons c rest =>
      have hrest : rest.length ≤ fuel := by simpa using hs
      simp only [replaceAllF, leadsWith, Bool.and_true, List.map_cons]
      by_cases hc : c = 95
      · subst hc
        rw [if_pos (by decide)]
        rw [show ([95] : List Nat).length - 1 = 0 from rfl, List.drop_zero]
        rw [ih rest hrest]
        rfl
      · have h95 : ((95 : Nat) == c) = false :=
          beq_eq_false_iff_ne.mpr (fun h => hc h.symm)
        rw [if_neg (by simp [h95])]
        rw [ih rest hrest]
        simp [repl1, hc]

theorem replaceAll_underscore (s : List Nat) :
    replaceAll [95] [32] s = s.map repl1 :=
  replaceAllF_underscore s.length s (Nat.le_refl _)

theorem pyTitleAux_cons_alpha {c : Nat} {rest : List Nat} (b : Bool)
    (h : isAlphaB c = true) :
    pyTitleAux b (c :: rest) = cond b (toLow c) (toUp c) :: pyTitleAux true rest := by
  simp [pyTitleAux, h]

theorem pyTitleAux_cons_nonalpha {c : Nat} {rest : List Nat} (b : Bool)
    (h : isAlphaB c = false) :
    pyTitleAux b (c :: rest) = c :: pyTitleAux false rest := by
  simp [pyTitleAux, h]

/-- Re-titling a titled-then-underscore-substituted string is a no-op. -/
theorem pyTitleAux_fix_map_repl1 :
    ∀ (s : List Nat) (b : Bool),
      pyTitleAux b ((pyTitleAux b s).map repl1) = (pyTitleAux b s).map repl1 := by
  intro s
  induction s with
  | nil => intro b; rfl
  | cons c rest ih =>
    intro b
    by_cases hc : isAlphaB c = true
    · rw [pyTitleAux_cons_alpha b hc, List.map_cons]
      cases b with
      | true =>
        have h1 : isAlphaB (toLow c) = true := by rw [isAlphaB_toLow]; exact hc
        rw [Bool.cond_true, repl1_of_alpha h1, pyTitleAux_cons_alpha true h1,
          Bool.cond_true, toLow_toLow, ih true]
      | false =>
        have h1 : isAlphaB (toUp c) = true := by rw [isAlphaB_toUp]; exact hc
        rw [Bool.cond_false, repl1_of_alpha h1, pyTitleAux_cons_alpha false h1,
          Bool.cond_false, toUp_toUp, ih true]
    · have hc' : isAlphaB c = false := by simpa using hc
      have h1 : isAlphaB (repl1 c) = false := isAlphaB_repl1 hc'
      rw [pyTitleAux_cons_nonalpha b hc', List.map_cons,
        pyTitleAux_cons_nonalpha b h1, ih false]

/-! ## `strip` lemmas -/

theorem dropLeading_head? :
    ∀ (l : List Nat) (a : Nat), (dropLeading l).head? = some a → isSpaceB a = false := by
  intro l
  induction l with
  | nil => intro a h; simp [dropLeading] at h
  | cons c rest ih =>
    intro a h
    by_cases hc : isSpaceB c
    · rw [dropLeading, if_pos hc] at h
      exact ih a h
    · rw [dropLeading, if_neg hc] at h
      simp at h
      subst h
      simpa using hc

theorem dropLeading_cons_of_nonspace {c : Nat} {rest : List Nat}
    (h : isSpaceB c = false) : dropLeading (c :: rest) = c :: rest := by
  rw [dropLeading, if_neg (by simp [h])]

theorem dropLeading_suffix :
    ∀ l : List Nat, ∃ pre, l = pre ++ dropLeading l := by
  intro l
  induction l with
  | nil => exact ⟨[], rfl⟩
  | cons c rest ih =>
    by_cases hc : isSpaceB c
    · obtain ⟨pre, hp⟩ := ih
      refine ⟨c :: pre, ?_⟩
      rw [dropLeading, if_pos hc]
      simpa using hp
    · exact ⟨[], by rw [dropLeading, if_neg hc]; simp⟩

/-- A string with no whitespace at either edge is fixed by `strip`. -/
theorem pyStrip_of_edgeOk {s : List Nat} (h : edgeOk s = true) : pyStrip s = s := by
  cases s with
  | nil => rfl
  | cons c rest =>
    unfold edgeOk at h
    have hlast : ((c :: rest).getLast?).isSome := by
      simp [List.getLast?_isSome]
    obtain ⟨b, hb⟩ := Option.isSome_iff_exists.mp hlast
    rw [List.head?_cons, hb] at h
    simp only [Bool.and_eq_true, Bool.not_eq_true'] at h
    obtain ⟨hcs, hbs⟩ := h
    unfold pyStrip
    rw [dropLeading_cons_of_nonspace hcs]
    have hrev : ((c :: rest).reverse).head? = some b := by
      rw [List.head?_reverse]; exact hb
    have : dropLeading ((c :: rest).reverse) = (c :: rest).reverse := by
      cases hr : (c :: rest).reverse with
      | nil => rfl
      | cons x xs =>
        rw [hr] at hrev
        simp at hrev
        subst hrev
        exact dropLeading_cons_of_nonspace hbs
    rw [this, List.reverse_reverse]

theorem edgeOk_intro {t : List Nat} {a b : Nat} (h1 : t.head? = some a)
    (h2 : t.getLast? = some b) (h3 : isSpaceB a = false)
    (h4 : isSpaceB b = false) : edgeOk t = true := by
  unfold edgeOk
  rw [h1, h2]
  simp [h3, h4]

/-- The two-sided strip of a string whose head (if any) is non-space has no
whitespace at either edge. -/
theorem edgeOk_strip_back {u : List Nat}
    (hu : ∀ a, u.head? = some a → isSpaceB a = false) :
    edgeOk (dropLeading u.reverse).reverse = true := by
  cases hv : dropLeading u.reverse with
  | nil => rfl
  | cons x xs =>
    have hxs : isSpaceB x = false :=
      dropLeading_head? u.reverse x (by rw [hv]; rfl)
    have hne_u : u ≠ [] := by
      intro h0
      rw [h0] at hv
      simp [dropLeading] at hv
    obtain ⟨a, ha⟩ : ∃ a, u.head? = some a := by
      cases hg : u.head? with
      | none => rw [List.head?_eq_none_iff] at hg; exact absurd hg hne_u
      | some a => exact ⟨a, rfl⟩
    have has : isSpaceB a = false := hu a ha
    have hlastv : (x :: xs).getLast? = some a := by
      obtain ⟨pre, hp⟩ := dropLeading_suffix u.reverse
      rw [hv] at hp
      have h1 : u.reverse.getLast? = (x :: xs).getLast? := by
        rw [hp, List.getLast?_append]
        cases hg : (x :: xs).getLast? with
        | none => rw [List.getLast?_eq_none_iff] at hg; simp at hg
        | some y => simp
      rw [← h1, List.getLast?_reverse, ha]
    refine edgeOk_intro (a := a) (b := x) ?_ ?_ has hxs
    · rw [List.head?_reverse, hlastv]
    · rw [List.getLast?_reverse]
      rfl

/-- The result of `strip` has no whitespace at either edge. -/
theorem edgeOk_pyStrip (s : List Nat) : edgeOk (pyStrip s) = true :=
  edgeOk_strip_back (fun a ha => dropLeading_head? s a ha)

/-- `strip` is idempotent. -/
theorem pyStrip_idem (s : List Nat) : pyStrip (pyStrip s) = pyStrip s :=
  pyStrip_of_edgeOk (edgeOk_pyStrip s)

/-! ## Idempotence of `normalize_name` away from edge underscores -/

theorem map_repl1_map_repl1 (s : List Nat) :
    (s.map repl1).map repl1 = s.map repl1 := by
  rw [List.map_map]
  exact List.map_congr_left (fun n _ => repl1_repl1 n)

/-- A string that is titled, underscore-substituted and edge-clean is a
fixed point of `normalize_name`. -/
theorem normalize_name_fix {y u : List Nat} (h : edgeOk y = true)
    (hy : y = (pyTitleAux false u).map repl1) : normalize_name y = y := by
  unfold normalize_name pyTitle
  rw [pyStrip_of_edgeOk h, replaceAll_underscore]
  conv_lhs => rw [hy]
  rw [pyTitleAux_fix_map_repl1 u false, map_repl1_map_repl1, ← hy]

/-- On a name whose normalized form has no whitespace at either edge,
`normalize_name` is idempotent. -/
theorem normalize_name_idem_of_edgeOk {s : List Nat}
    (h : edgeOk (normalize_name s) = true) :
    normalize_name (normalize_name s) = normalize_name s :=
  normalize_name_fix h (by unfold normalize_name pyTitle; exact replaceAll_underscore _)

/-! ## Length bookkeeping for `replaceAll` (backup / cleaned paths) -/

theorem leadsWith_length :
    ∀ (pat s : List Nat), leadsWith pat s = true → pat.length ≤ s.length := by
  intro pat
  induction pat with
  | nil => intro s h; simp
  | cons a as ih =>
    intro s h
    cases s with
    | nil => simp [leadsWith] at h
    | cons b bs =>
      simp only [leadsWith, Bool.and_eq_true] at h
      have := ih bs h.2
      simp only [List.length_cons]
      omega

theorem replaceAllF_length :
    ∀ (fuel : Nat) (pat rep s : List Nat), s.length ≤ fuel →
      (replaceAllF pat rep fuel s).length + occCountF pat fuel s * pat.length
        = s.length + occCountF pat fuel s * rep.length := by
  intro fuel
  induction fuel with
  | zero =>
    intro pat rep s hs
    cases s with
    | nil => simp [replaceAllF, occCountF]
    | cons c rest => simp at hs
  | succ fuel ih =>
    intro pat rep s hs
    cases s with
    | nil => simp [replaceAllF, occCountF]
    | cons c rest =>
      have hrest : rest.length ≤ fuel := by simpa using hs
      by_cases hb : (decide (pat.length ≠ 0) && leadsWith pat (c :: rest)) = true
      · have hneq : pat.length ≠ 0 := by
          have := (Bool.and_eq_true _ _).mp hb
          exact of_decide_eq_true this.1
        have hlead : leadsWith pat (c :: rest) = true :=
          ((Bool.and_eq_true _ _).mp hb).2
        have hple : pat.length ≤ rest.length + 1 := by
          have := leadsWith_length pat (c :: rest) hlead
          simpa using this
        have hdrop : (List.drop (pat.length - 1) rest).length ≤ fuel := by
          rw [List.length_drop]; omega
        rw [replaceAllF, occCountF, if_pos hb, if_pos hb]
        have hIH := ih pat rep (List.drop (pat.length - 1) rest) hdrop
        rw [List.length_append, List.length_cons, List.length_drop] at *
        generalize hA : occCountF pat fuel (List.drop (pat.length - 1) rest) * pat.length = A at *
        generalize hB : occCountF pat fuel (List.drop (pat.length - 1) rest) * rep.length = B at *
        rw [Nat.succ_mul, Nat.succ_mul, hA, hB]
        omega
      · rw [replaceAllF, occCountF, if_neg hb, if_neg hb]
        have hIH := ih pat rep rest hrest
        simp only [List.length_cons]
        omega

theorem replaceAll_length (pat rep s : List Nat) :
    (replaceAll pat rep s).length + occCount pat s * pat.length
      = s.length + occCount pat s * rep.length :=
  replaceAllF_length s.length pat rep s (Nat.le_refl _)

/-! ## Duplicate removal: spec-side formulation and equivalence -/

/-- Modelled from the spec's wording of duplicate removal: the first
occurrence of each group of equal rows is kept, all later occurrences are
dropped, and the surviving order is preserved. -/
def keepFirsts : List (List Cell) → List (List Cell)
  | [] => []
  | x :: xs => x :: keepFirsts (xs.filter (fun y => decide (y ≠ x)))
termination_by l => l.length
decreasing_by
  simp only [List.length_cons]
  exact Nat.lt_succ_of_le (List.length_filter_le _ _)

theorem keepFirsts_nil : keepFirsts [] = [] := by
  rw [keepFirsts]

theorem keepFirsts_cons (x : List Cell) (xs : List (List Cell)) :
    keepFirsts (x :: xs) = x :: keepFirsts (xs.filter (fun y => decide (y ≠ x))) := by
  rw [keepFirsts]

theorem dedupAux_eq_keepFirsts_filter :
    ∀ (l seen : List (List Cell)),
      dedupAux seen l = keepFirsts (l.filter (fun r => decide (r ∉ seen))) := by
  intro l
  induction l with
  | nil => intro seen; simp [dedupAux, keepFirsts_nil]
  | cons x xs ih =>
    intro seen
    by_cases hx : x ∈ seen
    · rw [dedupAux, if_pos hx, List.filter_cons,
        if_neg (by simp [hx]), ih seen]
    · rw [dedupAux, if_neg hx, List.filter_cons, if_pos (by simp [hx]),
        keepFirsts_cons, ih (x :: seen), List.filter_filter]
      refine congrArg (x :: ·) (congrArg keepFirsts (List.filter_congr ?_))
      intro y hy
      rw [← Bool.decide_and, decide_eq_decide]
      simp only [List.mem_cons, not_or]

theorem dedupAux_nil_eq_keepFirsts (l : List (List Cell)) :
    dedupAux [] l = keepFirsts l := by
  rw [dedupAux_eq_keepFirsts_filter]
  congr 1
  apply List.filter_eq_self.mpr
  intro a ha
  simp

theorem keepFirsts_sublist :
    ∀ (n : Nat) (l : List (List Cell)), l.length ≤ n →
      List.Sublist (keepFirsts l) l := by
  intro n
  induction n with
  | zero =>
    intro l hl
    rw [List.length_eq_zero.mp (Nat.le_zero.mp hl), keepFirsts_nil]
  | succ n ih =>
    intro l hl
    cases l with
    | nil => rw [keepFirsts_nil]
    | cons x xs =>
      rw [keepFirsts_cons]
      apply List.Sublist.cons₂
      have h1 : List.Sublist (keepFirsts (xs.filter (fun y => decide (y ≠ x))))
          (xs.filter (fun y => decide (y ≠ x))) := by
        apply ih
        have := List.length_filter_le (fun y => decide (y ≠ x)) xs
        have hxs : xs.length ≤ n := by simpa using hl
        omega
      exact h1.trans (List.filter_sublist xs)

theorem mem_keepFirsts :
    ∀ (n : Nat) (l : List (List Cell)) (r : List Cell), l.length ≤ n →
      (r ∈ keepFirsts l ↔ r ∈ l) := by
  intro n
  induction n with
  | zero =>
    intro l r hl
    rw [List.length_eq_zero.mp (Nat.le_zero.mp hl), keepFirsts_nil]
  | succ n ih =>
    intro l r hl
    cases l with
    | nil => rw [keepFirsts_nil]
    | cons x xs =>
      rw [keepFirsts_cons]
      constructor
      · intro h
        rcases List.mem_cons.mp h with h | h
        · exact List.mem_cons.mpr (Or.inl h)
        · have hlen : (xs.filter (fun y => decide (y ≠ x))).length ≤ n := by
            have := List.length_filter_le (fun y => decide (y ≠ x)) xs
            have hxs : xs.length ≤ n := by simpa using hl
            omega
          have := (ih _ r hlen).mp h
          have := List.mem_filter.mp this
          exact List.mem_cons.mpr (Or.inr this.1)
      · intro h
        rcases List.mem_cons.mp h with h | h
        · exact List.mem_cons.mpr (Or.inl h)
        · by_cases hrx : r = x
          · exact List.mem_cons.mpr (Or.inl hrx)
          · have hlen : (xs.filter (fun y => decide (y ≠ x))).length ≤ n := by
              have := List.length_filter_le (fun y => decide (y ≠ x)) xs
              have hxs : xs.length ≤ n := by simpa using hl
              omega
            refine List.mem_cons.mpr (Or.inr ((ih _ r hlen).mpr ?_))
            exact List.mem_filter.mpr ⟨h, by simpa using hrx⟩

theorem keepFirsts_nodup :
    ∀ (n : Nat) (l : List (List Cell)), l.length ≤ n →
      (keepFirsts l).Nodup := by
  intro n
  induction n with
  | zero =>
    intro l hl
    rw [List.length_eq_zero.mp (Nat.le_zero.mp hl), keepFirsts_nil]
    exact List.nodup_nil
  | succ n ih =>
    intro l hl
    cases l with
    | nil => rw [keepFirsts_nil]; exact List.nodup_nil
    | cons x xs =>
      rw [keepFirsts_cons]
      have hlen : (xs.filter (fun y => decide (y ≠ x))).length ≤ n := by
        have := List.length_filter_le (fun y => decide (y ≠ x)) xs
        have hxs : xs.length ≤ n := by simpa using hl
        omega
      refine List.nodup_cons.mpr ⟨?_, ih _ hlen⟩
      intro hmem
      have := (mem_keepFirsts _ _ x hlen).mp hmem
      have := List.mem_filter.mp this
      simp at this

/-! ## Indexed access through `mapIdxFrom` -/

theorem mapIdxFrom_get? {α β : Type} (f : Nat → α → β) :
    ∀ (l : List α) (i j : Nat),
      (mapIdxFrom f i l).get? j = (l.get? j).map (f (i + j)) := by
  intro l
  induction l with
  | nil => intro i j; rfl
  | cons a as ih =>
    intro i j
    cases j with
    | zero => rfl
    | succ j =>
      simp only [mapIdxFrom, List.get?_cons_succ]
      rw [ih (i + 1) j, show i + 1 + j = i + (j + 1) from by omega]

/-! ## Spec-side title-case formulations (for the column-name claims) -/

/-- Modelled from the spec's words: title case where a word is delimited by
whitespace — the first letter of each whitespace-delimited word is
capitalized and the rest lowercased.  The flag records whether we are
inside a word (i.e. the previous character was not whitespace). -/
def titleWhitespaceWordsAux : Bool → List Nat → List Nat
  | _, [] => []
  | inWord, c :: rest =>
    if isSpaceB c then c :: titleWhitespaceWordsAux false rest
    else (cond inWord (toLow c) (toUp c)) :: titleWhitespaceWordsAux true rest

def titleWhitespaceWords (s : List Nat) : List Nat :=
  titleWhitespaceWordsAux false s

/-- The normalization the claim describes: strip, then whitespace-delimited
title case, then underscores to spaces, in that order. -/
def normalize_name_spec_ws (s : List Nat) : List Nat :=
  replaceAll [95] [32] (titleWhitespaceWords (pyStrip s))

/-- Title case with words as maximal runs of letters: a letter whose
preceding character (if any) is not a letter is capitalized, a letter
preceded by a letter is lowercased, every other character is unchanged.
The parameter is the preceding character. -/
def titleRunsAux (prev : Option Nat) : List Nat → List Nat
  | [] => []
  | c :: rest =>
    (if isAlphaB c then
      (match prev with
       | some p => cond (isAlphaB p) (toLow c) (toUp c)
       | none => toUp c)
     else c) :: titleRunsAux (some c) rest

def titleRuns (s : List Nat) : List Nat :=
  titleRunsAux none s

/-- Whether the previous character was cased, as `pyTitleAux` tracks it. -/
def prevAlpha : Option Nat → Bool
  | none => false
  | some p => isAlphaB p

theorem titleRunsAux_cons (prev : Option Nat) (c : Nat) (rest : List Nat) :
    titleRunsAux prev (c :: rest) =
      (if isAlphaB c then
        (match prev with
         | some p => cond (isAlphaB p) (toLow c) (toUp c)
         | none => toUp c)
       else c) :: titleRunsAux (some c) rest := rfl

theorem pyTitleAux_eq_titleRunsAux :
    ∀ (s : List Nat) (prev : Option Nat),
      pyTitleAux (prevAlpha prev) s = titleRunsAux prev s := by
  intro s
  induction s with
  | nil => intro prev; cases prev <;> rfl
  | cons c rest ih =>
    intro prev
    by_cases hc : isAlphaB c = true
    · rw [pyTitleAux_cons_alpha _ hc, titleRunsAux_cons, if_pos hc]
      have htail : pyTitleAux true rest = titleRunsAux (some c) rest := by
        have := ih (some c)
        simpa [prevAlpha, hc] using this
      rw [htail]
      cases prev with
      | none => rfl
      | some p => rfl
    · have hc' : isAlphaB c = false := by simpa using hc
      rw [pyTitleAux_cons_nonalpha _ hc', titleRunsAux_cons, if_neg (by simp [hc'])]
      have htail : pyTitleAux false rest = titleRunsAux (some c) rest := by
        have := ih (some c)
        simpa [prevAlpha, hc'] using this
      rw [htail]

/-- Python `str.title()` agrees with the runs-of-letters formulation. -/
theorem pyTitle_eq_titleRuns (s : List Nat) : pyTitle s = titleRuns s :=
  pyTitleAux_eq_titleRunsAux s none

/-! ## Claim C1: distinctness of backup / cleaned / input paths -/

/-- C1 (counterexample): for the accepted input path `data.xls` (the GUI
accepts `*.xls` and `pd.read_excel` reads it), `replace(".xlsx", ...)` is a
no-op, so both the backup path and the cleaned path EQUAL the input path,
contradicting the claimed distinctness. -/
theorem C1_counterexample :
    create_backup_path (codes "data.xls") (codes "20240101_120000") = codes "data.xls" ∧
    get_cleaned_filename (codes "data.xls") (codes "20240101_120000") = codes "data.xls" := by
  decide

/-- C1 (amended): for every input path containing `.xlsx` (so the
`str.replace` actually fires) and timestamps of equal length (the strftime
format is fixed-width), the backup path and the cleaned path are distinct
from the input path and from each other. -/
theorem C1_paths_distinct (path ts1 ts2 : List Nat)
    (hocc : 0 < occCount (codes ".xlsx") path)
    (hts : ts1.length = ts2.length) :
    create_backup_path path ts1 ≠ path ∧
    get_cleaned_filename path ts2 ≠ path ∧
    create_backup_path path ts1 ≠ get_cleaned_filename path ts2 := by
  have h1 := replaceAll_length (codes ".xlsx")
    (codes "_backup_" ++ ts1 ++ codes ".xlsx") path
  have h2 := replaceAll_length (codes ".xlsx")
    (codes "_cleaned_" ++ ts2 ++ codes ".xlsx") path
  have hb : (codes "_backup_" ++ ts1 ++ codes ".xlsx").length = 13 + ts1.length := by
    rw [List.length_append, List.length_append,
      show (codes "_backup_").length = 8 from rfl,
      show (codes ".xlsx").length = 5 from rfl]
    omega
  have hc : (codes "_cleaned_" ++ ts2 ++ codes ".xlsx").length = 14 + ts1.length := by
    rw [List.length_append, List.length_append,
      show (codes "_cleaned_").length = 9 from rfl,
      show (codes ".xlsx").length = 5 from rfl]
    omega
  rw [hb, show (codes ".xlsx").length = 5 from rfl, Nat.mul_add] at h1
  rw [hc, show (codes ".xlsx").length = 5 from rfl, Nat.mul_add] at h2
  unfold create_backup_path get_cleaned_filename
  generalize hx : occCount (codes ".xlsx") path * ts1.length = x at h1 h2
  refine ⟨fun heq => ?_, fun heq => ?_, fun heq => ?_⟩ <;>
    (have hlen := congrArg List.length heq; omega)

/-- C1 witness: a concrete `.xlsx` path where the amended claim applies. -/
theorem C1_paths_distinct_witness :
    create_backup_path (codes "report.xlsx") (codes "20240101_120000") ≠ codes "report.xlsx" ∧
    get_cleaned_filename (codes "report.xlsx") (codes "20240101_120000") ≠ codes "report.xlsx" ∧
    create_backup_path (codes "report.xlsx") (codes "20240101_120000") ≠
      get_cleaned_filename (codes "report.xlsx") (codes "20240101_120000") :=
  C1_paths_distinct (codes "report.xlsx") (codes "20240101_120000")
    (codes "20240101_120000") (by decide) rfl

/-! ## Claim C2: idempotence of the column-name normalization -/

/-- C2 (counterexample): the name `a_` normalizes to `A ` (trailing
underscore becomes a trailing space), and a second application strips that
space to `A`, so normalization is NOT idempotent on every name. -/
theorem C2_counterexample :
    normalize_name (normalize_name (codes "a_")) ≠ normalize_name (codes "a_") := by
  decide

/-- C2 (amended): the per-name normalization
`str(col).strip().title().replace('_', ' ')` is idempotent on every name
whose normalized form has no whitespace at either edge (equivalently: the
stripped name does not begin or end with an underscore); in particular
`"first_name "` maps to `"First Name"` and `"First Name"` is fixed. -/
theorem C2_normalize_idempotent :
    (∀ name : List Nat, edgeOk (normalize_name name) = true →
      normalize_name (normalize_name name) = normalize_name name) ∧
    normalize_name (codes "first_name ") = codes "First Name" ∧
    normalize_name (codes "First Name") = codes "First Name" :=
  ⟨fun _ h => normalize_name_idem_of_edgeOk h, by decide, by decide⟩

/-- C2 witness: idempotence at the spec's own example `"first_name "`. -/
theorem C2_normalize_idempotent_witness :
    normalize_name (normalize_name (codes "first_name ")) =
      normalize_name (codes "first_name ") :=
  C2_normalize_idempotent.1 (codes "first_name ") (by decide)

/-! ## Claim C6: what the column-name normalization computes -/

/-- C6 (counterexample): with title case read as whitespace-delimited (as
the claim words it), `first_name` would normalize to `First name`; the code
normalizes it to `First Name`, because Python `str.title()` starts a new
word after ANY non-letter (here the underscore). -/
theorem C6_counterexample :
    normalize_name (codes "first_name") = codes "First Name" ∧
    normalize_name_spec_ws (codes "first_name") = codes "First name" ∧
    normalize_name (codes "first_name") ≠ normalize_name_spec_ws (codes "first_name") := by
  decide

/-- C6 (amended): for every column name, the normalization is the header
text stripped, then title-cased with words as maximal runs of letters (the
first letter of each run capitalized, the rest lowercased, a new word after
any non-letter), then with underscores replaced by spaces, in that order. -/
theorem C6_normalize_spec (name : List Nat) :
    normalize_name name = replaceAll [95] [32] (titleRuns (pyStrip name)) := by
  unfold normalize_name
  rw [pyTitle_eq_titleRuns]

/-! ## Claim C5: empty-row / empty-column removal -/

/-- C5: `remove_empty_rows` deletes a row iff every cell is the null
marker; a (nonempty) row of all empty strings is kept; afterwards no
remaining row is all-null; and after `remove_empty_columns` no remaining
column is all-null. -/
theorem C5_empty_removal (df : DataFrame) :
    (∀ r : List Cell,
      r ∈ (remove_empty_rows df).rows ↔ r ∈ df.rows ∧ rowAllNull r = false) ∧
    (∀ r : List Cell, r ∈ df.rows → r ≠ [] →
      (∀ c ∈ r, c = some (Val.vStr [])) → r ∈ (remove_empty_rows df).rows) ∧
    (∀ r ∈ (remove_empty_rows df).rows, rowAllNull r = false) ∧
    (∀ j, j < (remove_empty_columns df).columns.length →
      colAllNull (remove_empty_columns df).rows j = false) := by
  have hmem : ∀ r : List Cell,
      r ∈ (remove_empty_rows df).rows ↔ r ∈ df.rows ∧ rowAllNull r = false := by
    intro r
    unfold remove_empty_rows
    rw [List.mem_filter]
    simp [Bool.not_eq_true']
  refine ⟨hmem, ?_, ?_, ?_⟩
  · intro r hr hne hcells
    refine (hmem r).mpr ⟨hr, ?_⟩
    cases r with
    | nil => exact absurd rfl hne
    | cons c cs =>
      have hc : c = some (Val.vStr []) := hcells c (List.mem_cons_self c cs)
      subst hc
      simp [rowAllNull, cellIsNull]
  · intro r hr
    exact ((hmem r).mp hr).2
  · intro j hj
    have hjlen : j < (keptCols df).length := by
      simpa [remove_empty_columns] using hj
    have hjjmem : (keptCols df).get ⟨j, hjlen⟩ ∈ keptCols df :=
      List.get_mem (keptCols df) j hjlen
    have hjjfilter : colAllNull df.rows ((keptCols df).get ⟨j, hjlen⟩) = false := by
      have hmf := List.mem_filter.mp
        (show (keptCols df).get ⟨j, hjlen⟩ ∈
          (List.range df.columns.length).filter (fun k => !colAllNull df.rows k)
         from hjjmem)
      simpa using hmf.2
    have hcols : colAt (remove_empty_columns df).rows j
        = colAt df.rows ((keptCols df).get ⟨j, hjlen⟩) := by
      unfold remove_empty_columns colAt
      rw [List.map_map]
      apply List.map_congr_left
      intro r hr
      simp only [Function.comp_apply]
      rw [List.getD_eq_getElem ((keptCols df).map (fun k => r.getD k none)) none
        (by simpa using hjlen)]
      rw [List.getElem_map]
      rw [List.get_eq_getElem]
    unfold colAllNull at hjjfilter ⊢
    rw [hcols]
    exact hjjfilter

/-- C5 witness: a concrete nonempty all-empty-string row survives
empty-row removal. -/
theorem C5_empty_removal_witness :
    [some (Val.vStr []), some (Val.vStr [])] ∈
      (remove_empty_rows
        { columns := [codes "A", codes "B"],
          rows := [[some (Val.vStr []), some (Val.vStr [])], [none, none]] }).rows :=
  (C5_empty_removal
    { columns := [codes "A", codes "B"],
      rows := [[some (Val.vStr []), some (Val.vStr [])], [none, none]] }).2.1
    [some (Val.vStr []), some (Val.vStr [])] (by decide) (by decide) (by decide)

/-! ## Claim C7: duplicate-row removal -/

/-- C7: `remove_duplicates` keeps the first occurrence of each duplicate
group (rows equal in every column, null-equals-null), drops all later
occurrences, and preserves the relative order of the survivors: its rows
are exactly `keepFirsts` of the input rows, a duplicate-free sublist of the
input with the same members. -/
theorem C7_duplicate_removal (df : DataFrame) :
    (remove_duplicates df).rows = keepFirsts df.rows ∧
    List.Sublist (remove_duplicates df).rows df.rows ∧
    (∀ r : List Cell, r ∈ (remove_duplicates df).rows ↔ r ∈ df.rows) ∧
    (remove_duplicates df).rows.Nodup := by
  have h0 : (remove_duplicates df).rows = keepFirsts df.rows :=
    dedupAux_nil_eq_keepFirsts df.rows
  refine ⟨h0, ?_, ?_, ?_⟩
  · rw [h0]
    exact keepFirsts_sublist df.rows.length df.rows (Nat.le_refl _)
  · intro r
    rw [h0]
    exact mem_keepFirsts df.rows.length df.rows r (Nat.le_refl _)
  · rw [h0]
    exact keepFirsts_nodup df.rows.length df.rows (Nat.le_refl _)

/-! ## Claim C9: `trim_spaces` / `title_case_cells` on text-typed columns -/

theorem trimRow_get? (df : DataFrame) (r : List Cell) (j : Nat) :
    (trimRow df r).get? j = (r.get? j).map (trimCell df j) := by
  unfold trimRow
  rw [mapIdxFrom_get?]
  simp

theorem titleRow_get? (df : DataFrame) (r : List Cell) (j : Nat) :
    (titleRow df r).get? j = (r.get? j).map (titleCell df j) := by
  unfold titleRow
  rw [mapIdxFrom_get?]
  simp

/-- C9: in a text-typed (object-dtype) column, `trim_spaces` makes every
cell a non-null string with no whitespace at either edge, the null marker
becoming the literal string `nan` (and `Nan` under `title_case_cells`); so
when every column is text-typed the after-statistics count zero empty
cells. -/
theorem C9_text_cells :
    (∀ (df : DataFrame) (r : List Cell) (j : Nat),
      colDtypeObject df j = true →
      ((∀ c, (trimRow df r).get? j = some c →
        ∃ s, c = some (Val.vStr s) ∧ pyStrip s = s) ∧
       (r.get? j = some none →
        (trimRow df r).get? j = some (some (Val.vStr (codes "nan")))) ∧
       (r.get? j = some none →
        (titleRow df r).get? j = some (some (Val.vStr (codes "Nan")))))) ∧
    (∀ df : DataFrame,
      (∀ r ∈ df.rows, r.length = df.columns.length) →
      (∀ j, j < df.columns.length → colDtypeObject df j = true) →
      (get_dataframe_stats (trim_spaces df)).empty_cells = 0) := by
  constructor
  · intro df r j hdtype
    refine ⟨?_, ?_, ?_⟩
    · intro c hc
      rw [trimRow_get?] at hc
      cases hr : r.get? j with
      | none => rw [hr] at hc; simp at hc
      | some c0 =>
        rw [hr] at hc
        simp only [Option.map_some'] at hc
        obtain rfl : trimCell df j c0 = c := Option.some.inj hc
        unfold trimCell
        rw [if_pos hdtype]
        exact ⟨pyStrip (cellStr c0), rfl, pyStrip_idem (cellStr c0)⟩
    · intro hr
      rw [trimRow_get?, hr]
      simp only [Option.map_some']
      unfold trimCell
      rw [if_pos hdtype]
      rfl
    · intro hr
      rw [titleRow_get?, hr]
      simp only [Option.map_some']
      unfold titleCell
      rw [if_pos hdtype]
      have : pyTitle (cellStr none) = codes "Nan" := by decide
      rw [show cellStr none = codes "nan" from rfl]
      rw [show pyTitle (codes "nan") = codes "Nan" from by decide]
  · intro df hshape hdtype
    show ((trim_spaces df).rows.map (fun r => r.countP cellIsNull)).sum = 0
    apply List.sum_eq_zero
    intro x hx
    rw [List.mem_map] at hx
    obtain ⟨r', hr', hxeq⟩ := hx
    unfold trim_spaces at hr'
    simp only [List.mem_map] at hr'
    obtain ⟨r, hr, hreq⟩ := hr'
    subst hreq
    subst hxeq
    rw [List.countP_eq_zero]
    intro c hc
    obtain ⟨j, hj⟩ := List.mem_iff_get?.mp hc
    have hjr : j < r.length := by
      by_contra hge
      rw [trimRow_get?, List.get?_eq_none.mpr (by omega)] at hj
      simp at hj
    have hdt : colDtypeObject df j = true := hdtype j (by rw [← hshape r hr]; exact hjr)
    rw [trimRow_get?] at hj
    cases hg : r.get? j with
    | none => rw [hg] at hj; simp at hj
    | some c0 =>
      rw [hg] at hj
      simp only [Option.map_some'] at hj
      obtain rfl : trimCell df j c0 = c := Option.some.inj hj
      unfold trimCell
      rw [if_pos hdt]
      simp [cellIsNull]

/-- A concrete frame with one text-typed column containing a null. -/
def dfObjNull : DataFrame :=
  { columns := [codes "A"],
    rows := [[some (Val.vStr (codes "x"))], [none]] }

/-- C9 witness: a null cell of a text-typed column becomes the string
`nan` under `trim_spaces`. -/
theorem C9_text_cells_witness :
    (trimRow dfObjNull [none]).get? 0 = some (some (Val.vStr (codes "nan"))) :=
  (C9_text_cells.1 dfObjNull [none] 0 (by decide)).2.1 (by decide)

/-! ## Pipeline claims: progress, no-op run, error propagation -/

/-- C3: with the backup and load steps succeeding, the progress hook
receives exactly one call per enabled operation, in the fixed order, with
value `floor((completed) / (enabled) * 100)`: the call list is the range
map, its length is the number of enabled operations, it is empty when none
is enabled, its values are nondecreasing, and its final value is `100`;
the operations run are the enabled ones in the fixed order. -/
theorem C3_progress_calls (ε : Type) (env : Env ε) (path : List Nat)
    (config : CleaningConfig) (ts1 ts2 : List Nat) (df : DataFrame)
    (hb : env.backupOutcome = Except.ok ())
    (hl : env.loadOutcome = Except.ok df) :
    (clean_excel_file env path config ts1 ts2).2.2 =
      (List.range (enabled_operations config).length).map
        (fun i => (i + 1) * 100 / (enabled_operations config).length) ∧
    (clean_excel_file env path config ts1 ts2).2.2.length =
      (enabled_operations config).length ∧
    ((enabled_operations config).length = 0 →
      (clean_excel_file env path config ts1 ts2).2.2 = []) ∧
    List.Pairwise (fun a b => a ≤ b) (clean_excel_file env path config ts1 ts2).2.2 ∧
    (0 < (enabled_operations config).length →
      (clean_excel_file env path config ts1 ts2).2.2.getLast? = some 100) ∧
    (clean_excel_file env path config ts1 ts2).2.1 =
      (enabled_operations config).map (fun op => op.1) := by
  have hcalls : (clean_excel_file env path config ts1 ts2).2.2 =
      (List.range (enabled_operations config).length).map
        (fun i => (i + 1) * 100 / (enabled_operations config).length) := by
    unfold clean_excel_file
    rw [hb, hl]
    cases hs : env.saveOutcome with
    | error e => rfl
    | ok u => rfl
  have hran : (clean_excel_file env path config ts1 ts2).2.1 =
      (enabled_operations config).map (fun op => op.1) := by
    unfold clean_excel_file
    rw [hb, hl]
    cases hs : env.saveOutcome with
    | error e => rfl
    | ok u => rfl
  refine ⟨hcalls, ?_, ?_, ?_, ?_, hran⟩
  · rw [hcalls]
    simp
  · intro h0
    rw [hcalls, h0]
    rfl
  · rw [hcalls]
    refine List.Pairwise.map _ ?_ (List.pairwise_lt_range _)
    intro a b hab
    exact Nat.div_le_div_right (Nat.mul_le_mul_right 100 (by omega))
  · intro hn
    obtain ⟨m, hm⟩ : ∃ m, (enabled_operations config).length = m + 1 :=
      ⟨(enabled_operations config).length - 1, by omega⟩
    rw [hcalls, hm, List.range_succ, List.map_append, List.map_cons,
      List.map_nil, List.getLast?_concat,
      Nat.mul_div_cancel_left 100 (Nat.succ_pos m)]

/-- C4: when every flag is false, the pipeline applies no transformation:
the output dataset is the loaded dataset unchanged (equal row and column
counts), the applied-operations list is empty, no progress call is made,
and the backup holds exactly the input bytes (the verbatim copy). -/
theorem C4_all_flags_false (ε : Type) (env : Env ε) (path ts1 ts2 : List Nat)
    (df : DataFrame)
    (hb : env.backupOutcome = Except.ok ())
    (hl : env.loadOutcome = Except.ok df)
    (hs : env.saveOutcome = Except.ok ()) :
    ∃ p : PipeOk,
      clean_excel_file env path
        { remove_duplicates := false, remove_empty_rows := false,
          remove_empty_columns := false, trim_spaces := false,
          normalize_column_names := false, title_case_cells := false }
        ts1 ts2 = (Except.ok p, [], []) ∧
      p.statistics.operations_applied = [] ∧
      p.outputDF = df ∧
      p.backupBytes = env.inputBytes ∧
      p.statistics.final = p.statistics.original ∧
      p.statistics.final.rows = df.rows.length ∧
      p.statistics.final.columns = df.columns.length := by
  unfold clean_excel_file
  rw [hb, hl, hs]
  exact ⟨_, rfl, rfl, rfl, rfl, rfl, rfl, rfl⟩

/-- C8: a failure at any step aborts the run and surfaces the underlying
error unmodified; a backup failure yields the error before any
transformation ran or any progress call was made, and so does a load
failure; a save failure also surfaces its error unchanged. -/
theorem C8_error_propagation (ε : Type) (env : Env ε) (path : List Nat)
    (config : CleaningConfig) (ts1 ts2 : List Nat) (e : ε) :
    (env.backupOutcome = Except.error e →
      clean_excel_file env path config ts1 ts2 = (Except.error e, [], [])) ∧
    (env.backupOutcome = Except.ok () → env.loadOutcome = Except.error e →
      clean_excel_file env path config ts1 ts2 = (Except.error e, [], [])) ∧
    (∀ df : DataFrame, env.backupOutcome = Except.ok () →
      env.loadOutcome = Except.ok df → env.saveOutcome = Except.error e →
      (clean_excel_file env path config ts1 ts2).1 = Except.error e) := by
  refine ⟨?_, ?_, ?_⟩
  · intro hb
    unfold clean_excel_file
    rw [hb]
  · intro hb hl
    unfold clean_excel_file
    rw [hb, hl]
  · intro df hb hl hs
    unfold clean_excel_file
    rw [hb, hl, hs]

/-- C10: the percent computation (the only division by the number of
enabled operations) happens only when at least one operation is enabled:
whenever any progress call exists the divisor is positive, and with zero
enabled operations no call at all is made. -/
theorem C10_division_guarded (ε : Type) (env : Env ε) (path : List Nat)
    (config : CleaningConfig) (ts1 ts2 : List Nat) :
    ((clean_excel_file env path config ts1 ts2).2.2 ≠ [] →
      0 < (enabled_operations config).length) ∧
    ((enabled_operations config).length = 0 →
      (clean_excel_file env path config ts1 ts2).2.2 = []) := by
  have key : (enabled_operations config).length = 0 →
      (clean_excel_file env path config ts1 ts2).2.2 = [] := by
    intro h0
    unfold clean_excel_file
    cases hb : env.backupOutcome with
    | error e => rfl
    | ok u =>
      cases hl : env.loadOutcome with
      | error e => rfl
      | ok df =>
        cases hs : env.saveOutcome with
        | error e => simp [h0]
        | ok v => simp [h0]
  exact ⟨fun hne => Nat.pos_of_ne_zero (fun h0 => hne (key h0)), key⟩

/-! ## Concrete fixtures for the pipeline witnesses -/

/-- A one-cell concrete frame. -/
def df0 : DataFrame :=
  { columns := [codes "Name"], rows := [[some (Val.vStr (codes "a"))]] }

/-- An environment in which every file-system step succeeds. -/
def envOk : Env Nat :=
  { inputBytes := [1, 2, 3],
    backupOutcome := Except.ok (),
    loadOutcome := Except.ok df0,
    saveOutcome := Except.ok () }

/-- An environment in which the backup step fails with error `7`. -/
def envBadBackup : Env Nat :=
  { inputBytes := [1, 2, 3],
    backupOutcome := Except.error 7,
    loadOutcome := Except.error 7,
    saveOutcome := Except.error 7 }

/-- The spec's progress scenario: exactly three flags enabled. -/
def cfg3 : CleaningConfig :=
  { remove_duplicates := true, remove_empty_rows := true, trim_spaces := true }

/-- The all-flags-false configuration. -/
def cfg0 : CleaningConfig := {}

/-- C3 witness: the call list at a concrete three-flag run. -/
theorem C3_progress_calls_witness :
    (clean_excel_file envOk (codes "b.xlsx") cfg3 (codes "t") (codes "t")).2.2 =
      (List.range (enabled_operations cfg3).length).map
        (fun i => (i + 1) * 100 / (enabled_operations cfg3).length) :=
  (C3_progress_calls Nat envOk (codes "b.xlsx") cfg3 (codes "t") (codes "t")
    df0 rfl rfl).1

/-- C4 witness: the no-op run at a concrete environment. -/
theorem C4_all_flags_false_witness :
    ∃ p : PipeOk,
      clean_excel_file envOk (codes "b.xlsx")
        { remove_duplicates := false, remove_empty_rows := false,
          remove_empty_columns := false, trim_spaces := false,
          normalize_column_names := false, title_case_cells := false }
        (codes "t") (codes "t") = (Except.ok p, [], []) ∧
      p.statistics.operations_applied = [] ∧
      p.outputDF = df0 ∧
      p.backupBytes = envOk.inputBytes ∧
      p.statistics.final = p.statistics.original ∧
      p.statistics.final.rows = df0.rows.length ∧
      p.statistics.final.columns = df0.columns.length :=
  C4_all_flags_false Nat envOk (codes "b.xlsx") (codes "t") (codes "t") df0 rfl rfl rfl

/-- C8 witness: a failing backup aborts the concrete run with its error. -/
theorem C8_error_propagation_witness :
    clean_excel_file envBadBackup (codes "b.xlsx") cfg3 (codes "t") (codes "t") =
      (Except.error 7, [], []) :=
  (C8_error_propagation Nat envBadBackup (codes "b.xlsx") cfg3 (codes "t")
    (codes "t") 7).1 rfl

/-- C10 witness: a concrete run that makes progress calls has a positive
divisor. -/
theorem C10_division_guarded_witness :
    0 < (enabled_operations cfg3).length :=
  (C10_division_guarded Nat envOk (codes "b.xlsx") cfg3 (codes "t")
    (codes "t")).1 (by decide)
